import Mathlib

/-!
Shallow embedding of the record-aggregation pipeline of `src/Report.py`
(functions `get_epmc_papers`, `get_domestic_news`, `get_overseas_news`,
`generate_ai_report`).

Modelling conventions:
* Python `datetime` values are modelled as `Int` (seconds); `timedelta(days=d)`
  is `d * 86400`.  Only subtraction and order are used by the code.
* The standard-library date parser `parsedate_to_datetime` and the formatter
  `strftime("%Y-%m-%d")` are third-party library code, not repository code;
  they enter the model as explicit function parameters `parseDate :
  String → Option Int` (with `none` for a parse failure, mirroring the
  `try/except` around the call) and `fmtDay : Int → String`.
* The network is modelled as an explicit response oracle: `none` stands for
  any transport error, non-success HTTP status, or a body that fails to
  parse as JSON/XML (all of which raise inside the `try` block and are
  caught); `some r` stands for a successfully parsed response `r`.
* Python string comparison (used by `sorted(..., key=lambda x: x['date'])`)
  is lexicographic on code points, which coincides with Lean's `String.lt`.
* Python `sorted(..., reverse=True)` is a stable descending sort: keys
  non-increasing, and elements with equal keys keep their input order.  It
  is modelled by a stable descending insertion sort.
* A Python `dict` comprehension `{n['url']: n for n in l}.values()` yields,
  for each url in order of first occurrence, the last record of `l`
  carrying that url.
-/

/-- Normalized record, the dictionary
`{"title": _, "abstract": _, "url": _, "date": _}` built by the fetchers. -/
structure Rec where
  title : String
  abstract : String
  url : String
  date : String
deriving DecidableEq, Repr

/-- One `<item>` element of an RSS `<channel>`: the fields the code reads.
`description` is `none` when the element text is missing (Python `None`). -/
structure RssItem where
  title : String
  link : String
  pubDate : String
  description : Option String
deriving DecidableEq, Repr

/-- One entry of the Europe PMC JSON result list: the fields the code reads.
`doi` is `none` when the key is absent (`p.get('doi')` returns `None`). -/
structure EpmcResult where
  title : String
  abstractText : String
  doi : Option String
  firstPublicationDate : String
deriving DecidableEq, Repr

/-- Greatest index `j` with `1 ≤ j < run.length` and `run[j] = '>'`
(`i` is the index of the head of the list within the scanned run).
This is where the greedy match of `[^<]+>` ends after backtracking. -/
def lastGtIdx : List Char → Nat → Option Nat
  | [], _ => none
  | c :: cs, i =>
    match lastGtIdx cs (i + 1) with
    | some j => some j
    | none => if c = '>' ∧ 1 ≤ i then some i else none

/-- Character-level engine of `re.sub('<[^<]+>', '', s)`: at each `'<'`, the
regex greedily matches up to the last `'>'` before the next `'<'` (at least
one character between them); matched spans are deleted, scanning resumes
after the match.  `fuel` bounds the recursion (callers pass the length). -/
def stripTagsAux : Nat → List Char → List Char
  | 0, l => l
  | _, [] => []
  | fuel + 1, c :: rest =>
    if c = '<' then
      match lastGtIdx (rest.takeWhile (fun d => d ≠ '<')) 0 with
      | some j => stripTagsAux fuel (rest.drop (j + 1))
      | none => '<' :: stripTagsAux fuel rest
    else c :: stripTagsAux fuel rest

/-- Model of `re.sub('<[^<]+>', '', s)`, the HTML-tag stripper used on
titles, descriptions and abstracts. -/
def stripTags (s : String) : String :=
  ⟨stripTagsAux s.data.length s.data⟩

/-- Characters removed by Python `str.strip()` (ASCII whitespace). -/
def pyIsSpace (c : Char) : Bool :=
  c == ' ' || c == '\t' || c == '\n' || c == '\r' || c == '\x0b' || c == '\x0c'

/-- Model of Python `str.strip()`: drop leading and trailing whitespace. -/
def pyStrip (s : String) : String :=
  ⟨((s.data.dropWhile pyIsSpace).reverse.dropWhile pyIsSpace).reverse⟩

/-- Model of Python slicing `s[:n]` on code points (used for `[:300]`).
Stated on the character list so that it evaluates inside the kernel. -/
def pyTake (n : Nat) (s : String) : String := ⟨s.data.take n⟩

/-- Python string comparison: lexicographic on code points.  Stated on the
character lists so that it evaluates inside the kernel; it agrees with the
order on `String` (see `strLt_iff`). -/
def strLt (a b : String) : Bool := decide (a.data < b.data)

/-- Insert `x` into a descending-by-date list, after every strictly larger
key and before every key `≤ x.date` (so earlier input comes first on ties). -/
def insertDesc (x : Rec) : List Rec → List Rec
  | [] => [x]
  | y :: ys => if strLt x.date y.date then y :: insertDesc x ys else x :: y :: ys

/-- Model of `sorted(l, key=lambda x: x['date'], reverse=True)`: stable
descending insertion sort on the `date` string. -/
def sortByDateDesc : List Rec → List Rec
  | [] => []
  | x :: xs => insertDesc x (sortByDateDesc xs)

/-- Urls of `l` in order of first occurrence, without repetitions: the key
order of the Python dict `{n['url']: n for n in l}`. -/
def firstUrls : List Rec → List String
  | [] => []
  | r :: rs => r.url :: (firstUrls rs).filter (fun u => u ≠ r.url)

/-- Model of `list({n['url']: n for n in l}.values())`: for each url in
first-occurrence order, the last record of `l` with that url. -/
def dedupByUrl (l : List Rec) : List Rec :=
  (firstUrls l).filterMap (fun u => (l.filter (fun r => r.url = u)).getLast?)

/-- Cutoff `datetime.now() - timedelta(days=months*30)` of the news fetchers
(and the window filter they apply), with `now` in seconds. -/
def cutoffDate (now : Int) (months : Nat) : Int :=
  now - (months : Int) * 30 * 86400

/-- Query parts of `get_epmc_papers`:
`[f'({k.strip()})' for k in keywords if k.strip()]`. -/
def epmcQueryParts (keywords : List String) : List String :=
  (keywords.filter (fun k => pyStrip k ≠ "")).map (fun k => "(" ++ pyStrip k ++ ")")

/-- Per-result processing of `get_epmc_papers`: strip tags from the
abstract, build the doi link, and keep the result only when both the title
and the stripped abstract are non-empty (Python truthiness of `str`). -/
def epmcItem (p : EpmcResult) : Option Rec :=
  let abstract := stripTags p.abstractText
  let link := match p.doi with
    | some d => if d ≠ "" then "https://doi.org/" ++ d else ""
    | none => ""
  if p.title ≠ "" ∧ abstract ≠ "" then
    some ⟨p.title, abstract, link, p.firstPublicationDate⟩
  else none

/-- Model of `get_epmc_papers(keywords, months)` together with the number of
HTTP requests it issues.  When the query parts are empty the function
returns `[]` before building the query or touching the network; otherwise it
issues exactly one request, whose outcome is the oracle `response` (`none`
for any exception inside the `try`, which yields `[]`). -/
def get_epmc_papersR (keywords : List String)
    (response : Option (List EpmcResult)) : List Rec × Nat :=
  if epmcQueryParts keywords = [] then ([], 0)
  else
    match response with
    | none => ([], 1)
    | some results => (results.filterMap epmcItem, 1)

/-- Result list of `get_epmc_papers` (first component of the paired model). -/
def get_epmc_papers (keywords : List String)
    (response : Option (List EpmcResult)) : List Rec :=
  (get_epmc_papersR keywords response).1

/-- Placeholder abstract of `get_domestic_news` when the RSS description is
missing or empty (Python falsiness of `None` and `""`). -/
def domesticPlaceholder : String := "상세 내용은 링크 참고"

/-- Cleaned abstract of a domestic item:
`re.sub('<[^<]+>', '', description) if description else placeholder`. -/
def domesticClean (description : Option String) : String :=
  match description with
  | some d => if d ≠ "" then stripTags d else domesticPlaceholder
  | none => domesticPlaceholder

/-- Per-item processing of `get_domestic_news`: parse the pub date (on
success drop the item when it lies before the cutoff, else reformat the
date with `fmtDay`; on failure keep the item with the raw `pubDate`
string), strip tags from title and description, truncate the abstract to
300 characters. -/
def domesticItem (parseDate : String → Option Int) (fmtDay : Int → String)
    (cutoff : Int) (item : RssItem) : Option Rec :=
  let dateStr : Option String :=
    match parseDate item.pubDate with
    | some dt => if dt < cutoff then none else some (fmtDay dt)
    | none => some item.pubDate
  match dateStr with
  | none => none
  | some ds =>
    some ⟨stripTags item.title, pyTake 300 (domesticClean item.description),
          item.link, ds⟩

/-- Placeholder abstract of `get_overseas_news` (a constant: the code never
reads the RSS description there). -/
def overseasPlaceholder : String := "상세 내용은 원문 참조"

/-- Per-item processing of `get_overseas_news`: same date handling as the
domestic fetcher, but the title is used as-is (no tag stripping) and the
abstract is a fixed placeholder. -/
def overseasItem (parseDate : String → Option Int) (fmtDay : Int → String)
    (cutoff : Int) (item : RssItem) : Option Rec :=
  match parseDate item.pubDate with
  | some dt =>
    if dt < cutoff then none
    else some ⟨item.title, overseasPlaceholder, item.link, fmtDay dt⟩
  | none => some ⟨item.title, overseasPlaceholder, item.link, item.pubDate⟩

/-- The cleaned keywords for which the news fetchers issue a request: each
keyword is stripped and blank ones are skipped before the request is made. -/
def requestedKeywords : List String → List String
  | [] => []
  | k :: ks =>
    (if pyStrip k = "" then [] else [pyStrip k]) ++ requestedKeywords ks

/-- The `news_list` accumulated by the keyword loop of `get_domestic_news`:
blank keywords are skipped; a failed fetch (`none`: transport error,
non-success status, or an XML body that fails to parse) triggers the
per-keyword `except`, contributes nothing and the loop continues. -/
def domesticNewsList (parseDate : String → Option Int) (fmtDay : Int → String)
    (cutoff : Int) (fetch : String → Option (List RssItem)) :
    List String → List Rec
  | [] => []
  | k :: ks =>
    (if pyStrip k = "" then []
     else
       match fetch (pyStrip k) with
       | none => []
       | some items => items.filterMap (domesticItem parseDate fmtDay cutoff))
    ++ domesticNewsList parseDate fmtDay cutoff fetch ks

/-- The `news_list` accumulated by the keyword loop of `get_overseas_news`. -/
def overseasNewsList (parseDate : String → Option Int) (fmtDay : Int → String)
    (cutoff : Int) (fetch : String → Option (List RssItem)) :
    List String → List Rec
  | [] => []
  | k :: ks =>
    (if pyStrip k = "" then []
     else
       match fetch (pyStrip k) with
       | none => []
       | some items => items.filterMap (overseasItem parseDate fmtDay cutoff))
    ++ overseasNewsList parseDate fmtDay cutoff fetch ks

/-- Model of `get_domestic_news(keywords, months)`:
`sorted({n['url']: n for n in news_list}.values(), key=..., reverse=True)`. -/
def get_domestic_news (parseDate : String → Option Int)
    (fmtDay : Int → String) (fetch : String → Option (List RssItem))
    (now : Int) (months : Nat) (keywords : List String) : List Rec :=
  sortByDateDesc (dedupByUrl
    (domesticNewsList parseDate fmtDay (cutoffDate now months) fetch keywords))

/-- Model of `get_overseas_news(keywords, months)`. -/
def get_overseas_news (parseDate : String → Option Int)
    (fmtDay : Int → String) (fetch : String → Option (List RssItem))
    (now : Int) (months : Nat) (keywords : List String) : List Rec :=
  sortByDateDesc (dedupByUrl
    (overseasNewsList parseDate fmtDay (cutoffDate now months) fetch keywords))

/-- Date filter of the normalize/merge stage, restated on an already-built
record exactly as the code computes it from the raw date string: parse the
`date` field; on success drop the record when it lies strictly before the
cutoff and otherwise reformat the date; on failure keep the record
unchanged. -/
def recFilter (parseDate : String → Option Int) (fmtDay : Int → String)
    (cutoff : Int) (r : Rec) : Option Rec :=
  match parseDate r.date with
  | some dt =>
    if dt < cutoff then none else some { r with date := fmtDay dt }
  | none => some r

/-- The normalize/merge stage of the news fetchers as one function on record
lists: date filter, url dedup (last seen wins), stable descending sort. -/
def normalizeStage (parseDate : String → Option Int) (fmtDay : Int → String)
    (cutoff : Int) (l : List Rec) : List Rec :=
  sortByDateDesc (dedupByUrl (l.filterMap (recFilter parseDate fmtDay cutoff)))

/-- Fixed model-preference list of `generate_ai_report`. -/
def preferredOrder : List String :=
  ["models/gemini-1.5-pro", "models/gemini-1.5-flash", "models/gemini-pro"]

/-- Candidate order tried by `generate_ai_report`: the preferred models that
are available, in preference order, then the remaining available models in
listing order. -/
def sortedModels (available : List String) : List String :=
  preferredOrder.filter (fun m => m ∈ available)
    ++ available.filter (fun m => m ∉ preferredOrder)

/-- Fallback loop of `generate_ai_report`: try each candidate model in
order (`call m = none` models a per-model exception, caught by the inner
`except: continue`); return the first success, or the plain failure string
when every candidate fails. -/
def tryModels (call : String → Option String) : List String → String
  | [] => "AI 분석 실패."
  | m :: ms =>
    match call m with
    | some text => text
    | none => tryModels call ms

/-- Model of `generate_ai_report(items, keywords, section_type)` restricted
to its control flow: empty input short-circuits; `listModels = none` models
an exception while listing models (outer `except`); otherwise the fallback
loop runs over `sortedModels`.  The prompt built from `items` and the
keywords is passed identically to every candidate, so it is folded into the
call oracle. -/
def generate_ai_report (items : List Rec)
    (listModels : Option (List String)) (call : String → Option String) :
    String :=
  if items = [] then "분석할 데이터가 없습니다."
  else
    match listModels with
    | none => "모델 설정 오류."
    | some available => tryModels call (sortedModels available)

/-! Concrete instances used to evaluate the model on closed inputs. -/

/-- Toy date parser standing in for `parsedate_to_datetime`: recognizes
three RFC-2822 strings and fails on everything else (in particular on
`%Y-%m-%d` formatted strings, which that parser rejects). -/
def toyParse : String → Option Int := fun s =>
  if s = "Mon, 17 Jun 2024 00:00:00 GMT" then some 1718582400
  else if s = "Sat, 01 Jun 2024 00:00:00 GMT" then some 1717200000
  else if s = "Mon, 01 Jan 2024 00:00:00 GMT" then some 1704067200
  else none

/-- Toy day formatter standing in for `strftime("%Y-%m-%d")` on the three
instants `toyParse` produces. -/
def toyFmt : Int → String := fun dt =>
  if dt = 1718582400 then "2024-06-17"
  else if dt = 1717200000 then "2024-06-01"
  else if dt = 1704067200 then "2024-01-01"
  else "1970-01-01"

/-- RSS item inside the window (2024-06-17), with markup in both fields. -/
def itemFresh : RssItem :=
  ⟨"<b>T1</b>", "https://news.example/1",
   "Mon, 17 Jun 2024 00:00:00 GMT", some "<i>d1</i>"⟩

/-- RSS item before the window (2024-01-01). -/
def itemStale : RssItem :=
  ⟨"T2", "https://news.example/2", "Mon, 01 Jan 2024 00:00:00 GMT", none⟩

/-- RSS item whose date string does not parse. -/
def itemNoDate : RssItem :=
  ⟨"T3", "https://news.example/3", "junk-date", some ""⟩

/-- RSS item with markup in the title, inside the window (2024-06-01). -/
def itemTagTitle : RssItem :=
  ⟨"<b>SAF</b>", "https://news.example/4",
   "Sat, 01 Jun 2024 00:00:00 GMT", none⟩

/-- Toy fetch oracle for the domestic fetcher (keyword `kd`). -/
def toyFetchD : String → Option (List RssItem) := fun k =>
  if k = "kd" then some [itemFresh, itemStale, itemNoDate] else none

/-- Toy fetch oracle for the overseas fetcher (keyword `ko`). -/
def toyFetchO : String → Option (List RssItem) := fun k =>
  if k = "ko" then some [itemTagTitle, itemNoDate] else none

/-- Two Europe PMC results sharing one doi (hence one url). -/
def paperDupA : EpmcResult := ⟨"PA", "AA", some "10.1/x", "2024-01-01"⟩

/-- Second result with the same doi as `paperDupA` but another title. -/
def paperDupB : EpmcResult := ⟨"PB", "AB", some "10.1/x", "2024-02-02"⟩

/-- Europe PMC result dated 2020, listed before a newer one. -/
def paperOld : EpmcResult := ⟨"P1", "A1", some "10.1/a", "2020-01-01"⟩

/-- Europe PMC result dated 2024, listed after an older one. -/
def paperNew : EpmcResult := ⟨"P2", "A2", some "10.1/b", "2024-01-01"⟩

/-- Europe PMC result with both fields present (abstract carries markup). -/
def paperGood : EpmcResult :=
  ⟨"Good title", "<p>Good abstract</p>", some "10.1/g", "2024-03-04"⟩

/-- Europe PMC result with an empty abstract. -/
def paperNoAbs : EpmcResult := ⟨"No abstract", "", some "10.1/n", "2024-03-05"⟩

/-- Toy parser for the idempotence witness: three one-letter date strings. -/
def wParse : String → Option Int := fun s =>
  if s = "a" then some 10 else if s = "b" then some 20
  else if s = "c" then some 1 else none

/-- Toy formatter for the idempotence witness; its output never parses. -/
def wFmt : Int → String := fun _ => "fmt-day"

/-- Record list exercising filter, dedup and sort in the idempotence
witness: a kept date, a duplicated url, a date below the cutoff, and an
unparseable date. -/
def wRecs : List Rec :=
  [⟨"r1", "s1", "u1", "a"⟩, ⟨"r2", "s2", "u2", "b"⟩,
   ⟨"r2x", "s2x", "u2", "b"⟩, ⟨"r3", "s3", "u3", "c"⟩,
   ⟨"r4", "s4", "u4", "zzz"⟩]

/-- A single record used as non-empty input to `generate_ai_report`. -/
def wItem : Rec := ⟨"t", "a", "u", "d"⟩

/-! Bridge between the evaluable comparison and the order on strings. -/

theorem strLt_iff (a b : String) : strLt a b = true ↔ a < b := by
  unfold strLt
  rw [decide_eq_true_eq]
  exact (String.lt_iff_toList_lt).symm

theorem strLt_false_iff (a b : String) : strLt a b = false ↔ b ≤ a := by
  rw [← Bool.not_eq_true, strLt_iff]
  exact not_lt

/-! Helper lemmas about the stable descending sort. -/

theorem insertDesc_perm (x : Rec) (l : List Rec) :
    List.Perm (insertDesc x l) (x :: l) := by
  induction l with
  | nil => exact List.Perm.refl _
  | cons y ys ih =>
    simp only [insertDesc]
    split
    · exact (List.Perm.cons y ih).trans (List.Perm.swap x y ys)
    · exact List.Perm.refl _

theorem sortByDateDesc_perm (l : List Rec) :
    List.Perm (sortByDateDesc l) l := by
  induction l with
  | nil => exact List.Perm.refl _
  | cons x xs ih =>
    exact (insertDesc_perm x (sortByDateDesc xs)).trans (List.Perm.cons x ih)

theorem pairwise_insertDesc (x : Rec) (l : List Rec)
    (h : l.Pairwise (fun a b => b.date ≤ a.date)) :
    (insertDesc x l).Pairwise (fun a b => b.date ≤ a.date) := by
  induction l with
  | nil => simp [insertDesc]
  | cons y ys ih =>
    rw [List.pairwise_cons] at h
    obtain ⟨hy, hys⟩ := h
    simp only [insertDesc]
    split
    case isTrue hlt =>
      rw [List.pairwise_cons]
      refine ⟨fun z hz => ?_, ih hys⟩
      rcases List.mem_cons.mp ((insertDesc_perm x ys).mem_iff.mp hz) with rfl | hzys
      · exact le_of_lt ((strLt_iff _ _).mp hlt)
      · exact hy z hzys
    case isFalse hnlt =>
      have hle : y.date ≤ x.date := (strLt_false_iff _ _).mp (by simpa using hnlt)
      rw [List.pairwise_cons]
      refine ⟨fun z hz => ?_, List.pairwise_cons.mpr ⟨hy, hys⟩⟩
      rcases List.mem_cons.mp hz with rfl | hzys
      · exact hle
      · exact le_trans (hy z hzys) hle

theorem sortByDateDesc_pairwise (l : List Rec) :
    (sortByDateDesc l).Pairwise (fun a b => b.date ≤ a.date) := by
  induction l with
  | nil => simp [sortByDateDesc]
  | cons x xs ih => exact pairwise_insertDesc x _ ih

theorem insertDesc_eq_cons (x : Rec) (l : List Rec)
    (h : ∀ y ∈ l, y.date ≤ x.date) : insertDesc x l = x :: l := by
  cases l with
  | nil => rfl
  | cons y ys =>
    simp only [insertDesc]
    have hfalse : strLt x.date y.date = false :=
      (strLt_false_iff _ _).mpr (h y (List.mem_cons_self y ys))
    rw [if_neg (by simp [hfalse])]

theorem sortByDateDesc_eq_self (l : List Rec)
    (h : l.Pairwise (fun a b => b.date ≤ a.date)) : sortByDateDesc l = l := by
  induction l with
  | nil => rfl
  | cons x xs ih =>
    rw [List.pairwise_cons] at h
    simp only [sortByDateDesc]
    rw [ih h.2, insertDesc_eq_cons x xs h.1]

theorem filter_insertDesc (x : Rec) (l : List Rec) (d : String) :
    (insertDesc x l).filter (fun r => r.date = d) =
      ((x :: l).filter (fun r => r.date = d)) := by
  induction l with
  | nil => rfl
  | cons y ys ih =>
    simp only [insertDesc]
    split
    case isTrue hlt =>
      have hxy : x.date = d → ¬ y.date = d := by
        intro hx hyd
        have hlt' := (strLt_iff _ _).mp hlt
        rw [hx, ← hyd] at hlt'
        exact lt_irrefl _ hlt'
      by_cases hx : x.date = d
      · simp [List.filter_cons, hx, hxy hx, ih]
      · by_cases hy : y.date = d <;> simp [List.filter_cons, hx, hy, ih]
    case isFalse hnlt => rfl

theorem filter_sortByDateDesc (l : List Rec) (d : String) :
    (sortByDateDesc l).filter (fun r => r.date = d) =
      l.filter (fun r => r.date = d) := by
  induction l with
  | nil => rfl
  | cons x xs ih =>
    simp only [sortByDateDesc]
    rw [filter_insertDesc, List.filter_cons, List.filter_cons, ih]

/-! Helper lemmas about the url dedup. -/

theorem mem_of_getLast?_eq {α : Type} (l : List α) (a : α)
    (h : l.getLast? = some a) : a ∈ l := by
  have hm : a ∈ l.getLast? := by simp [h, Option.mem_def]
  obtain ⟨hne, rfl⟩ := List.mem_getLast?_eq_getLast hm
  exact List.getLast_mem hne

theorem firstUrls_subset (l : List Rec) :
    ∀ u ∈ firstUrls l, ∃ r ∈ l, r.url = u := by
  induction l with
  | nil => intro u hu; cases hu
  | cons r rs ih =>
    intro u hu
    rcases List.mem_cons.mp hu with rfl | hu'
    · exact ⟨r, List.mem_cons_self r rs, rfl⟩
    · obtain ⟨s, hs, hsu⟩ := ih u (List.mem_filter.mp hu').1
      exact ⟨s, List.mem_cons_of_mem r hs, hsu⟩

theorem mem_firstUrls_of_mem (l : List Rec) (r : Rec) (h : r ∈ l) :
    r.url ∈ firstUrls l := by
  induction l with
  | nil => cases h
  | cons s rs ih =>
    rcases List.mem_cons.mp h with rfl | h'
    · exact List.mem_cons_self _ _
    · by_cases he : r.url = s.url
      · rw [he]; exact List.mem_cons_self _ _
      · refine List.mem_cons_of_mem _ (List.mem_filter.mpr ⟨ih h', ?_⟩)
        simp [he]

theorem nodup_firstUrls (l : List Rec) : (firstUrls l).Nodup := by
  induction l with
  | nil => exact List.nodup_nil
  | cons r rs ih =>
    show (r.url :: (firstUrls rs).filter (fun u => u ≠ r.url)).Nodup
    rw [List.nodup_cons]
    refine ⟨fun hmem => ?_, ih.filter _⟩
    have := (List.mem_filter.mp hmem).2
    simp at this

theorem getLast?_filter_url (l : List Rec) (u : String) (r : Rec)
    (h : (l.filter (fun s => s.url = u)).getLast? = some r) :
    r ∈ l ∧ r.url = u := by
  have hm := mem_of_getLast?_eq _ _ h
  have := List.mem_filter.mp hm
  exact ⟨this.1, by simpa using this.2⟩

theorem getLast?_filter_url_isSome (l : List Rec) (u : String)
    (h : ∃ r ∈ l, r.url = u) :
    ∃ s, (l.filter (fun t => t.url = u)).getLast? = some s ∧ s.url = u := by
  obtain ⟨r, hr, hru⟩ := h
  have hmem : r ∈ l.filter (fun t => t.url = u) :=
    List.mem_filter.mpr ⟨hr, by simp [hru]⟩
  have hne := List.ne_nil_of_mem hmem
  refine ⟨(l.filter (fun t => t.url = u)).getLast hne,
    List.getLast?_eq_getLast_of_ne_nil hne, ?_⟩
  have := List.mem_filter.mp (List.getLast_mem hne)
  simpa using this.2

theorem filterMap_map_url {f : String → Option Rec} (us : List String)
    (h : ∀ u ∈ us, ∃ r, f u = some r ∧ r.url = u) :
    (us.filterMap f).map Rec.url = us := by
  induction us with
  | nil => rfl
  | cons u us ih =>
    obtain ⟨r, hr, hru⟩ := h u (List.mem_cons_self u us)
    rw [List.filterMap_cons, hr, List.map_cons, hru,
      ih (fun v hv => h v (List.mem_cons_of_mem u hv))]

theorem dedupByUrl_map_url (l : List Rec) :
    (dedupByUrl l).map Rec.url = firstUrls l := by
  unfold dedupByUrl
  refine filterMap_map_url (firstUrls l) (fun u hu => ?_)
  obtain ⟨s, hs, hsu⟩ := getLast?_filter_url_isSome l u (firstUrls_subset l u hu)
  exact ⟨s, hs, hsu⟩

theorem dedupByUrl_subset (l : List Rec) (r : Rec) (h : r ∈ dedupByUrl l) :
    r ∈ l := by
  unfold dedupByUrl at h
  obtain ⟨u, _, hlast⟩ := List.mem_filterMap.mp h
  exact (getLast?_filter_url l u r hlast).1

theorem dedupByUrl_pairwise_ne (l : List Rec) :
    (dedupByUrl l).Pairwise (fun a b => a.url ≠ b.url) := by
  have h : ((dedupByUrl l).map Rec.url).Nodup := by
    rw [dedupByUrl_map_url]; exact nodup_firstUrls l
  rw [List.Nodup, List.pairwise_map] at h
  exact h

theorem filterMap_filter_url {f : String → Option Rec} (us : List String)
    (u : String) (hn : us.Nodup)
    (h : ∀ v ∈ us, ∃ r, f v = some r ∧ r.url = v) :
    (us.filterMap f).filter (fun r => r.url = u) =
      if u ∈ us then (f u).toList else [] := by
  induction us with
  | nil => simp
  | cons v vs ih =>
    obtain ⟨r, hr, hrv⟩ := h v (List.mem_cons_self v vs)
    rw [List.nodup_cons] at hn
    have ih' := ih hn.2 (fun w hw => h w (List.mem_cons_of_mem v hw))
    rw [List.filterMap_cons, hr, List.filter_cons]
    by_cases hvu : v = u
    · subst hvu
      rw [if_pos (by simp [hrv]), ih', if_neg hn.1, if_pos (List.mem_cons_self v vs),
        hr, Option.toList_some]
    · rw [if_neg (by simp [hrv, hvu]), ih']
      by_cases hu : u ∈ vs
      · rw [if_pos hu, if_pos (List.mem_cons_of_mem v hu)]
      · rw [if_neg hu, if_neg (by
          intro hmem
          rcases List.mem_cons.mp hmem with rfl | h2
          · exact hvu rfl
          · exact hu h2)]

theorem dedupByUrl_filter (l : List Rec) (u : String) :
    (dedupByUrl l).filter (fun r => r.url = u) =
      ((l.filter (fun r => r.url = u)).getLast?).toList := by
  unfold dedupByUrl
  rw [filterMap_filter_url (firstUrls l) u (nodup_firstUrls l)
    (fun v hv => by
      obtain ⟨s, hs, hsu⟩ := getLast?_filter_url_isSome l v (firstUrls_subset l v hv)
      exact ⟨s, hs, hsu⟩)]
  by_cases hu : u ∈ firstUrls l
  · rw [if_pos hu]
  · rw [if_neg hu]
    have hnil : l.filter (fun r => r.url = u) = [] := by
      rw [List.filter_eq_nil_iff]
      intro r hr
      simp only [decide_eq_true_eq]
      intro hru
      exact hu (hru ▸ mem_firstUrls_of_mem l r hr)
    rw [hnil]
    rfl

theorem filter_url_singleton_of_nodup (l : List Rec)
    (h : (l.map Rec.url).Nodup) (r : Rec) (hr : r ∈ l) :
    l.filter (fun s => s.url = r.url) = [r] := by
  induction l with
  | nil => cases hr
  | cons s ls ih =>
    rw [List.map_cons, List.nodup_cons] at h
    rcases List.mem_cons.mp hr with rfl | hr'
    · rw [List.filter_cons, if_pos (by simp)]
      have : ls.filter (fun t => t.url = r.url) = [] := by
        rw [List.filter_eq_nil_iff]
        intro t ht
        simp only [decide_eq_true_eq]
        intro htu
        exact h.1 (htu ▸ List.mem_map_of_mem Rec.url ht)
      rw [this]
    · have hne : s.url ≠ r.url := by
        intro he
        exact h.1 (he ▸ List.mem_map_of_mem Rec.url hr')
      rw [List.filter_cons, if_neg (by simp [hne]), ih h.2 hr']

theorem firstUrls_eq_map (l : List Rec) (h : (l.map Rec.url).Nodup) :
    firstUrls l = l.map Rec.url := by
  induction l with
  | nil => rfl
  | cons r rs ih =>
    rw [List.map_cons, List.nodup_cons] at h
    show r.url :: (firstUrls rs).filter (fun u => u ≠ r.url) = r.url :: rs.map Rec.url
    have : (firstUrls rs).filter (fun u => u ≠ r.url) = firstUrls rs := by
      rw [List.filter_eq_self]
      intro u hu
      obtain ⟨s, hs, hsu⟩ := firstUrls_subset rs u hu
      simp only [decide_eq_true_eq]
      intro he
      exact h.1 (he ▸ hsu ▸ List.mem_map_of_mem Rec.url hs)
    rw [this, ih h.2]

theorem dedupByUrl_eq_self (l : List Rec) (h : (l.map Rec.url).Nodup) :
    dedupByUrl l = l := by
  induction l with
  | nil => rfl
  | cons r rs ih =>
    have h' := h
    rw [List.map_cons, List.nodup_cons] at h'
    unfold dedupByUrl
    rw [firstUrls_eq_map _ h, List.map_cons, List.filterMap_cons]
    have hhead : ((r :: rs).filter (fun s => s.url = r.url)).getLast? = some r := by
      rw [filter_url_singleton_of_nodup (r :: rs) h r (List.mem_cons_self r rs)]
      rfl
    rw [hhead]
    have htail : (rs.map Rec.url).filterMap
        (fun u => ((r :: rs).filter (fun s => s.url = u)).getLast?) =
        (rs.map Rec.url).filterMap
        (fun u => (rs.filter (fun s => s.url = u)).getLast?) := by
      refine List.filterMap_congr (fun u hu => ?_)
      obtain ⟨s, hs, hsu⟩ := List.mem_map.mp hu
      have hne : ¬ r.url = u := by
        intro he
        exact h'.1 (he ▸ hsu ▸ List.mem_map_of_mem Rec.url hs)
      rw [List.filter_cons, if_neg (by simp [hne])]
    rw [htail]
    have : (rs.map Rec.url).filterMap
        (fun u => (rs.filter (fun s => s.url = u)).getLast?) = dedupByUrl rs := by
      unfold dedupByUrl
      rw [firstUrls_eq_map _ h'.2]
    rw [this, ih h'.2]

/-! Helper lemmas about the keyword loops and the normalize/merge stage. -/

theorem mem_domesticNewsList {parseDate : String → Option Int}
    {fmtDay : Int → String} {cutoff : Int}
    {fetch : String → Option (List RssItem)} (ks : List String) (r : Rec)
    (h : r ∈ domesticNewsList parseDate fmtDay cutoff fetch ks) :
    ∃ k ∈ ks, pyStrip k ≠ "" ∧ ∃ items, fetch (pyStrip k) = some items ∧
      ∃ item ∈ items, domesticItem parseDate fmtDay cutoff item = some r := by
  induction ks with
  | nil => cases h
  | cons k ks ih =>
    simp only [domesticNewsList] at h
    rcases List.mem_append.mp h with h1 | h2
    · by_cases hk : pyStrip k = ""
      · rw [if_pos hk] at h1; cases h1
      · rw [if_neg hk] at h1
        cases hfetch : fetch (pyStrip k) with
        | none => rw [hfetch] at h1; cases h1
        | some items =>
          rw [hfetch] at h1
          obtain ⟨item, hitem, heq⟩ := List.mem_filterMap.mp h1
          exact ⟨k, List.mem_cons_self k ks, hk, items, hfetch, item, hitem, heq⟩
    · obtain ⟨k', hk', rest⟩ := ih h2
      exact ⟨k', List.mem_cons_of_mem _ hk', rest⟩

theorem mem_overseasNewsList {parseDate : String → Option Int}
    {fmtDay : Int → String} {cutoff : Int}
    {fetch : String → Option (List RssItem)} (ks : List String) (r : Rec)
    (h : r ∈ overseasNewsList parseDate fmtDay cutoff fetch ks) :
    ∃ k ∈ ks, pyStrip k ≠ "" ∧ ∃ items, fetch (pyStrip k) = some items ∧
      ∃ item ∈ items, overseasItem parseDate fmtDay cutoff item = some r := by
  induction ks with
  | nil => cases h
  | cons k ks ih =>
    simp only [overseasNewsList] at h
    rcases List.mem_append.mp h with h1 | h2
    · by_cases hk : pyStrip k = ""
      · rw [if_pos hk] at h1; cases h1
      · rw [if_neg hk] at h1
        cases hfetch : fetch (pyStrip k) with
        | none => rw [hfetch] at h1; cases h1
        | some items =>
          rw [hfetch] at h1
          obtain ⟨item, hitem, heq⟩ := List.mem_filterMap.mp h1
          exact ⟨k, List.mem_cons_self k ks, hk, items, hfetch, item, hitem, heq⟩
    · obtain ⟨k', hk', rest⟩ := ih h2
      exact ⟨k', List.mem_cons_of_mem _ hk', rest⟩

/-- The record a domestic RSS item is cleaned into before the date filter
acts (title and description stripped, abstract truncated, raw date). -/
def domesticRaw (item : RssItem) : Rec :=
  ⟨stripTags item.title, pyTake 300 (domesticClean item.description),
   item.link, item.pubDate⟩

/-- The record an overseas RSS item is turned into before the date filter
acts (title kept as-is, placeholder abstract, raw date). -/
def overseasRaw (item : RssItem) : Rec :=
  ⟨item.title, overseasPlaceholder, item.link, item.pubDate⟩

/-- Cleaned-but-unfiltered records of the domestic keyword loop. -/
def domesticRawList (fetch : String → Option (List RssItem)) :
    List String → List Rec
  | [] => []
  | k :: ks =>
    (if pyStrip k = "" then []
     else
       match fetch (pyStrip k) with
       | none => []
       | some items => items.map domesticRaw)
    ++ domesticRawList fetch ks

/-- Cleaned-but-unfiltered records of the overseas keyword loop. -/
def overseasRawList (fetch : String → Option (List RssItem)) :
    List String → List Rec
  | [] => []
  | k :: ks =>
    (if pyStrip k = "" then []
     else
       match fetch (pyStrip k) with
       | none => []
       | some items => items.map overseasRaw)
    ++ overseasRawList fetch ks

theorem domesticItem_eq_recFilter (parseDate : String → Option Int)
    (fmtDay : Int → String) (cutoff : Int) (item : RssItem) :
    domesticItem parseDate fmtDay cutoff item =
      recFilter parseDate fmtDay cutoff (domesticRaw item) := by
  unfold domesticItem recFilter domesticRaw
  cases parseDate item.pubDate with
  | none => rfl
  | some dt => by_cases hdt : dt < cutoff <;> simp [hdt]

theorem overseasItem_eq_recFilter (parseDate : String → Option Int)
    (fmtDay : Int → String) (cutoff : Int) (item : RssItem) :
    overseasItem parseDate fmtDay cutoff item =
      recFilter parseDate fmtDay cutoff (overseasRaw item) := by
  unfold overseasItem recFilter overseasRaw
  cases parseDate item.pubDate with
  | none => rfl
  | some dt => by_cases hdt : dt < cutoff <;> simp [hdt]

theorem domesticNewsList_eq_filterMap (parseDate : String → Option Int)
    (fmtDay : Int → String) (cutoff : Int)
    (fetch : String → Option (List RssItem)) (ks : List String) :
    domesticNewsList parseDate fmtDay cutoff fetch ks =
      (domesticRawList fetch ks).filterMap (recFilter parseDate fmtDay cutoff) := by
  induction ks with
  | nil => rfl
  | cons k ks ih =>
    simp only [domesticNewsList, domesticRawList, List.filterMap_append]
    rw [ih]
    congr 1
    by_cases hk : pyStrip k = ""
    · rw [if_pos hk, if_pos hk]; rfl
    · rw [if_neg hk, if_neg hk]
      cases fetch (pyStrip k) with
      | none => rfl
      | some items =>
        rw [List.filterMap_map]
        exact List.filterMap_congr
          (fun item _ => domesticItem_eq_recFilter parseDate fmtDay cutoff item)

theorem overseasNewsList_eq_filterMap (parseDate : String → Option Int)
    (fmtDay : Int → String) (cutoff : Int)
    (fetch : String → Option (List RssItem)) (ks : List String) :
    overseasNewsList parseDate fmtDay cutoff fetch ks =
      (overseasRawList fetch ks).filterMap (recFilter parseDate fmtDay cutoff) := by
  induction ks with
  | nil => rfl
  | cons k ks ih =>
    simp only [overseasNewsList, overseasRawList, List.filterMap_append]
    rw [ih]
    congr 1
    by_cases hk : pyStrip k = ""
    · rw [if_pos hk, if_pos hk]; rfl
    · rw [if_neg hk, if_neg hk]
      cases fetch (pyStrip k) with
      | none => rfl
      | some items =>
        rw [List.filterMap_map]
        exact List.filterMap_congr
          (fun item _ => overseasItem_eq_recFilter parseDate fmtDay cutoff item)

theorem get_domestic_news_eq_stage (parseDate : String → Option Int)
    (fmtDay : Int → String) (fetch : String → Option (List RssItem))
    (now : Int) (months : Nat) (ks : List String) :
    get_domestic_news parseDate fmtDay fetch now months ks =
      normalizeStage parseDate fmtDay (cutoffDate now months)
        (domesticRawList fetch ks) := by
  unfold get_domestic_news normalizeStage
  rw [domesticNewsList_eq_filterMap]

theorem get_overseas_news_eq_stage (parseDate : String → Option Int)
    (fmtDay : Int → String) (fetch : String → Option (List RssItem))
    (now : Int) (months : Nat) (ks : List String) :
    get_overseas_news parseDate fmtDay fetch now months ks =
      normalizeStage parseDate fmtDay (cutoffDate now months)
        (overseasRawList fetch ks) := by
  unfold get_overseas_news normalizeStage
  rw [overseasNewsList_eq_filterMap]

theorem filterMap_id_of {α : Type} (g : α → Option α) (l : List α)
    (h : ∀ a ∈ l, g a = some a) : l.filterMap g = l := by
  induction l with
  | nil => rfl
  | cons a l ih =>
    rw [List.filterMap_cons, h a (List.mem_cons_self a l),
      ih (fun b hb => h b (List.mem_cons_of_mem a hb))]

theorem recFilter_fixed (parseDate : String → Option Int)
    (fmtDay : Int → String) (cutoff : Int)
    (H : ∀ dt : Int, parseDate (fmtDay dt) = none) (r r' : Rec)
    (h : recFilter parseDate fmtDay cutoff r = some r') :
    recFilter parseDate fmtDay cutoff r' = some r' := by
  cases hp : parseDate r.date with
  | none =>
    simp only [recFilter, hp, Option.some.injEq] at h
    subst h
    simp [recFilter, hp]
  | some dt =>
    simp only [recFilter, hp] at h
    by_cases hdt : dt < cutoff
    · rw [if_pos hdt] at h; cases h
    · rw [if_neg hdt, Option.some.injEq] at h
      subst h
      simp [recFilter, H dt]

theorem normalizeStage_mem_fixed (parseDate : String → Option Int)
    (fmtDay : Int → String) (cutoff : Int)
    (H : ∀ dt : Int, parseDate (fmtDay dt) = none) (l : List Rec) (r' : Rec)
    (h : r' ∈ normalizeStage parseDate fmtDay cutoff l) :
    recFilter parseDate fmtDay cutoff r' = some r' := by
  unfold normalizeStage at h
  have h2 := (sortByDateDesc_perm _).mem_iff.mp h
  have h3 := dedupByUrl_subset _ _ h2
  obtain ⟨r, _, hr⟩ := List.mem_filterMap.mp h3
  exact recFilter_fixed parseDate fmtDay cutoff H r r' hr

theorem normalizeStage_idempotent (parseDate : String → Option Int)
    (fmtDay : Int → String) (cutoff : Int)
    (H : ∀ dt : Int, parseDate (fmtDay dt) = none) (l : List Rec) :
    normalizeStage parseDate fmtDay cutoff
        (normalizeStage parseDate fmtDay cutoff l) =
      normalizeStage parseDate fmtDay cutoff l := by
  have hfil : (normalizeStage parseDate fmtDay cutoff l).filterMap
      (recFilter parseDate fmtDay cutoff) =
      normalizeStage parseDate fmtDay cutoff l :=
    filterMap_id_of _ _
      (fun r hr => normalizeStage_mem_fixed parseDate fmtDay cutoff H l r hr)
  have hnodup : ((normalizeStage parseDate fmtDay cutoff l).map Rec.url).Nodup := by
    unfold normalizeStage
    have hperm := (sortByDateDesc_perm
      (dedupByUrl (l.filterMap (recFilter parseDate fmtDay cutoff)))).map Rec.url
    rw [hperm.nodup_iff, dedupByUrl_map_url]
    exact nodup_firstUrls _
  have hsorted : (normalizeStage parseDate fmtDay cutoff l).Pairwise
      (fun a b => b.date ≤ a.date) := sortByDateDesc_pairwise _
  show sortByDateDesc (dedupByUrl ((normalizeStage parseDate fmtDay cutoff l).filterMap
    (recFilter parseDate fmtDay cutoff))) = normalizeStage parseDate fmtDay cutoff l
  rw [hfil, dedupByUrl_eq_self _ hnodup, sortByDateDesc_eq_self _ hsorted]

/-! Per-item window-filter characterizations. -/

theorem domesticItem_none_iff (p : String → Option Int) (f : Int → String)
    (c : Int) (item : RssItem) (dt : Int) (hp : p item.pubDate = some dt) :
    (domesticItem p f c item = none ↔ dt < c) := by
  simp only [domesticItem, hp]
  by_cases hdt : dt < c
  · simp [hdt]
  · simp [hdt]

theorem overseasItem_none_iff (p : String → Option Int) (f : Int → String)
    (c : Int) (item : RssItem) (dt : Int) (hp : p item.pubDate = some dt) :
    (overseasItem p f c item = none ↔ dt < c) := by
  simp only [overseasItem, hp]
  by_cases hdt : dt < c
  · simp [hdt]
  · simp [hdt]

/-! Claim C1. -/

/-- C1 (amended): in both news fetchers the inclusive window filter
applies exactly to the records whose date string parses: a raw item with
parsed date `dt` is dropped if and only if `dt < now - months*30 days`, so
an item dated exactly at the cutoff is kept; and every record of the
output arises from the per-item processing of some fetched item.  As
originally stated the claim is false: an item whose date string fails to
parse reaches the output without any window check
(see `C1_counterexample`). -/
theorem C1_window_filter_parsed (p : String → Option Int) (f : Int → String)
    (fetch : String → Option (List RssItem)) (now : Int) (months : Nat)
    (ks : List String) :
    (∀ item dt, p item.pubDate = some dt →
      (domesticItem p f (cutoffDate now months) item = none ↔
        dt < cutoffDate now months))
  ∧ (∀ r ∈ get_domestic_news p f fetch now months ks,
      ∃ k ∈ ks, pyStrip k ≠ "" ∧ ∃ items, fetch (pyStrip k) = some items ∧
        ∃ item ∈ items, domesticItem p f (cutoffDate now months) item = some r)
  ∧ (∀ item dt, p item.pubDate = some dt →
      (overseasItem p f (cutoffDate now months) item = none ↔
        dt < cutoffDate now months))
  ∧ (∀ r ∈ get_overseas_news p f fetch now months ks,
      ∃ k ∈ ks, pyStrip k ≠ "" ∧ ∃ items, fetch (pyStrip k) = some items ∧
        ∃ item ∈ items, overseasItem p f (cutoffDate now months) item = some r) := by
  refine ⟨fun item dt hp => domesticItem_none_iff p f _ item dt hp,
          fun r hr => ?_,
          fun item dt hp => overseasItem_none_iff p f _ item dt hp,
          fun r hr => ?_⟩
  · unfold get_domestic_news at hr
    exact mem_domesticNewsList ks r
      (dedupByUrl_subset _ _ ((sortByDateDesc_perm _).mem_iff.mp hr))
  · unfold get_overseas_news at hr
    exact mem_overseasNewsList ks r
      (dedupByUrl_subset _ _ ((sortByDateDesc_perm _).mem_iff.mp hr))

/-- Witness for `C1_window_filter_parsed` at a concrete input: the item
dated 2024-01-01 parses, and the filter drops it exactly because that date
lies before the five-month cutoff. -/
theorem C1_witness :
    domesticItem toyParse toyFmt (cutoffDate 1718582400 5) itemStale = none ↔
      (1704067200 : Int) < cutoffDate 1718582400 5 :=
  (C1_window_filter_parsed toyParse toyFmt toyFetchD 1718582400 5 ["kd"]).1
    itemStale 1704067200 (by decide)

/-- C1 counterexample: the domestic output contains a record that has no
parseable publication date at all, let alone one within the window, so the
claim as stated fails. -/
theorem C1_counterexample :
    ¬ (∀ r ∈ get_domestic_news toyParse toyFmt toyFetchD 1718582400 5 ["kd"],
        ∃ dt : Int, toyParse r.date = some dt ∧ cutoffDate 1718582400 5 ≤ dt) := by
  intro h
  obtain ⟨dt, hdt, _⟩ :=
    h ⟨"T3", domesticPlaceholder, "https://news.example/3", "junk-date"⟩ (by decide)
  have hnone : toyParse "junk-date" = none := by decide
  rw [hnone] at hdt
  exact Option.noConfusion hdt

/-! Claim C4. -/

/-- C4 (amended): a raw item whose date string fails to parse is not
dropped: both news fetchers keep it, with the raw unparsed provider string
as its `date` field and without any window check.  The claim as stated —
such records are excluded from the output — is false
(see `C4_counterexample`). -/
theorem C4_unparsed_date_kept (p : String → Option Int) (f : Int → String)
    (c : Int) (item : RssItem) (hp : p item.pubDate = none) :
    domesticItem p f c item = some (domesticRaw item)
  ∧ overseasItem p f c item = some (overseasRaw item) := by
  constructor
  · simp [domesticItem, hp, domesticRaw]
  · simp [overseasItem, hp, overseasRaw]

/-- Witness for `C4_unparsed_date_kept` at a concrete input. -/
theorem C4_witness :
    domesticItem toyParse toyFmt (cutoffDate 1718582400 5) itemNoDate =
      some (domesticRaw itemNoDate)
  ∧ overseasItem toyParse toyFmt (cutoffDate 1718582400 5) itemNoDate =
      some (overseasRaw itemNoDate) :=
  C4_unparsed_date_kept toyParse toyFmt (cutoffDate 1718582400 5) itemNoDate
    (by decide)

/-- C4 counterexample: a record whose date string does not parse is
present in the overseas output, carrying the unparsed string. -/
theorem C4_counterexample :
    toyParse itemNoDate.pubDate = none
  ∧ (⟨"T3", overseasPlaceholder, "https://news.example/3", "junk-date"⟩ : Rec) ∈
      get_overseas_news toyParse toyFmt toyFetchO 1718582400 5 ["ko"] := by
  exact ⟨by decide, by decide⟩

/-! Claim C2. -/

theorem dedup_filter_through_sort (l : List Rec) (u : String) :
    (sortByDateDesc (dedupByUrl l)).filter (fun r => r.url = u) =
      ((l.filter (fun r => r.url = u)).getLast?).toList := by
  have hperm :=
    (sortByDateDesc_perm (dedupByUrl l)).filter (fun r => decide (r.url = u))
  rw [dedupByUrl_filter l u] at hperm
  cases hcase : (l.filter (fun r => r.url = u)).getLast? with
  | none =>
    rw [hcase] at hperm
    exact List.perm_nil.mp hperm
  | some a =>
    rw [hcase] at hperm
    exact List.perm_singleton.mp hperm

/-- C2 (amended): for the two news fetchers the claim holds: output url
values are pairwise distinct, and for every url the output keeps exactly
the last fetched record carrying it (last-seen-wins overwrite, the Python
dict comprehension).  `get_epmc_papers`, however, performs no
deduplication at all, so the claim as stated over all three fetchers is
false (see `C2_counterexample`). -/
theorem C2_url_dedup_last_wins (p : String → Option Int) (f : Int → String)
    (fetch : String → Option (List RssItem)) (now : Int) (months : Nat)
    (ks : List String) (u : String) :
    (get_domestic_news p f fetch now months ks).Pairwise
      (fun a b => a.url ≠ b.url)
  ∧ (get_domestic_news p f fetch now months ks).filter (fun r => r.url = u) =
      (((domesticNewsList p f (cutoffDate now months) fetch ks).filter
        (fun r => r.url = u)).getLast?).toList
  ∧ (get_overseas_news p f fetch now months ks).Pairwise
      (fun a b => a.url ≠ b.url)
  ∧ (get_overseas_news p f fetch now months ks).filter (fun r => r.url = u) =
      (((overseasNewsList p f (cutoffDate now months) fetch ks).filter
        (fun r => r.url = u)).getLast?).toList := by
  refine ⟨?_, dedup_filter_through_sort _ u, ?_, dedup_filter_through_sort _ u⟩
  · exact ((sortByDateDesc_perm _).pairwise_iff
      (fun h he => h he.symm)).mpr (dedupByUrl_pairwise_ne _)
  · exact ((sortByDateDesc_perm _).pairwise_iff
      (fun h he => h he.symm)).mpr (dedupByUrl_pairwise_ne _)

/-- C2 counterexample: `get_epmc_papers` does not deduplicate: two
provider results with the same doi yield two output records with the same
url. -/
theorem C2_counterexample :
    ¬ (get_epmc_papers ["k"] (some [paperDupA, paperDupB])).Pairwise
        (fun a b => a.url ≠ b.url) := by decide

/-! Claim C3. -/

/-- C3 (amended): the two news fetchers sort their output by the `date`
string in non-increasing lexicographic order (descending publication-date
order for the uniform `%Y-%m-%d` strings produced for parsed dates), and
the sort is stable: for every key, the records carrying it appear in the
order of the deduplicated input.  `get_epmc_papers`, however, does not
sort at all (provider order), so the claim as stated over all three
fetchers is false (see `C3_counterexample`). -/
theorem C3_sorted_desc_stable (p : String → Option Int) (f : Int → String)
    (fetch : String → Option (List RssItem)) (now : Int) (months : Nat)
    (ks : List String) (d : String) :
    (get_domestic_news p f fetch now months ks).Pairwise
      (fun a b => b.date ≤ a.date)
  ∧ (get_domestic_news p f fetch now months ks).filter (fun r => r.date = d) =
      (dedupByUrl (domesticNewsList p f (cutoffDate now months) fetch ks)).filter
        (fun r => r.date = d)
  ∧ (get_overseas_news p f fetch now months ks).Pairwise
      (fun a b => b.date ≤ a.date)
  ∧ (get_overseas_news p f fetch now months ks).filter (fun r => r.date = d) =
      (dedupByUrl (overseasNewsList p f (cutoffDate now months) fetch ks)).filter
        (fun r => r.date = d) := by
  exact ⟨sortByDateDesc_pairwise _, filter_sortByDateDesc _ d,
         sortByDateDesc_pairwise _, filter_sortByDateDesc _ d⟩

/-- C3 counterexample: `get_epmc_papers` returns the provider's order;
with an older paper listed first, the output is not non-increasing in
publication date. -/
theorem C3_counterexample :
    ¬ (get_epmc_papers ["k"] (some [paperOld, paperNew])).Pairwise
        (fun a b => b.date ≤ a.date) := by
  intro h
  have heq : get_epmc_papers ["k"] (some [paperOld, paperNew]) =
      [⟨"P1", "A1", "https://doi.org/10.1/a", "2020-01-01"⟩,
       ⟨"P2", "A2", "https://doi.org/10.1/b", "2024-01-01"⟩] := by decide
  rw [heq, List.pairwise_cons] at h
  have hle := h.1 _ (List.mem_cons_self _ _)
  exact absurd hle (not_le_of_lt (String.lt_iff_toList_lt.mpr (by decide)))

/-! Claim C7. -/

theorem recFilter_preserves (p : String → Option Int) (f : Int → String)
    (c : Int) (x r : Rec) (h : recFilter p f c x = some r) :
    r.title = x.title ∧ r.abstract = x.abstract ∧ r.url = x.url := by
  cases hp : p x.date with
  | none =>
    simp only [recFilter, hp, Option.some.injEq] at h
    subst h
    exact ⟨rfl, rfl, rfl⟩
  | some dt =>
    simp only [recFilter, hp] at h
    by_cases hdt : dt < c
    · rw [if_pos hdt] at h; cases h
    · rw [if_neg hdt, Option.some.injEq] at h
      subst h
      exact ⟨rfl, rfl, rfl⟩

/-- C7 (amended): tag stripping is applied selectively, not to all
free-text fields of all fetchers: `get_domestic_news` strips both title
and description (and the spec's example normalizes as required);
`get_epmc_papers` strips only the abstract and passes the title through;
`get_overseas_news` neither strips its title nor reads a summary (it emits
a fixed placeholder).  The claim as stated over every fetcher and both
fields is false (see `C7_counterexample`). -/
theorem C7_markup_stripping :
    stripTags "<b>Yield</b> improved 12%" = "Yield improved 12%"
  ∧ (∀ (p : String → Option Int) (f : Int → String) (c : Int)
      (item : RssItem) (r : Rec),
      domesticItem p f c item = some r →
        r.title = stripTags item.title ∧
        r.abstract = pyTake 300 (domesticClean item.description))
  ∧ (∀ (q : EpmcResult) (r : Rec), epmcItem q = some r →
      r.title = q.title ∧ r.abstract = stripTags q.abstractText)
  ∧ (∀ (p : String → Option Int) (f : Int → String) (c : Int)
      (item : RssItem) (r : Rec),
      overseasItem p f c item = some r →
        r.title = item.title ∧ r.abstract = overseasPlaceholder) := by
  refine ⟨by decide, ?_, ?_, ?_⟩
  · intro p f c item r h
    rw [domesticItem_eq_recFilter] at h
    have hpr := recFilter_preserves _ _ _ _ _ h
    exact ⟨hpr.1, hpr.2.1⟩
  · intro q r h
    simp only [epmcItem] at h
    by_cases hq : q.title ≠ "" ∧ stripTags q.abstractText ≠ ""
    · rw [if_pos hq, Option.some.injEq] at h
      subst h
      exact ⟨rfl, rfl⟩
    · rw [if_neg hq] at h
      cases h
  · intro p f c item r h
    rw [overseasItem_eq_recFilter] at h
    have hpr := recFilter_preserves _ _ _ _ _ h
    exact ⟨hpr.1, hpr.2.1⟩

/-- Witness for `C7_markup_stripping`: the domestic item carrying markup
in title and description is cleaned as stated. -/
theorem C7_witness :
    (⟨"T1", "d1", "https://news.example/1", "2024-06-17"⟩ : Rec).title =
      stripTags itemFresh.title ∧
    (⟨"T1", "d1", "https://news.example/1", "2024-06-17"⟩ : Rec).abstract =
      pyTake 300 (domesticClean itemFresh.description) :=
  C7_markup_stripping.2.1 toyParse toyFmt (cutoffDate 1718582400 5) itemFresh
    ⟨"T1", "d1", "https://news.example/1", "2024-06-17"⟩ (by decide)

/-- C7 counterexample: the overseas fetcher hands a title downstream with
its markup intact. -/
theorem C7_counterexample :
    ¬ (∀ r ∈ get_overseas_news toyParse toyFmt toyFetchO 1718582400 5 ["ko"],
        r.title = stripTags r.title) := by decide

/-! Claim C5. -/

/-- C5: no fetch operation raises past its boundary (each is a total
function of the modelled failure oracles): a failed Europe PMC request
yields the empty list, and in both news fetchers a failed request for one
keyword contributes nothing while the remaining keywords are processed
unchanged. -/
theorem C5_failure_isolation (kws : List String) (p : String → Option Int)
    (f : Int → String) (fetch : String → Option (List RssItem))
    (now : Int) (months : Nat) (k : String) (ks : List String) :
    get_epmc_papers kws none = []
  ∧ (fetch (pyStrip k) = none →
      get_domestic_news p f fetch now months (k :: ks) =
        get_domestic_news p f fetch now months ks)
  ∧ (fetch (pyStrip k) = none →
      get_overseas_news p f fetch now months (k :: ks) =
        get_overseas_news p f fetch now months ks) := by
  refine ⟨?_, fun hfail => ?_, fun hfail => ?_⟩
  · unfold get_epmc_papers get_epmc_papersR
    split
    · rfl
    · rfl
  · unfold get_domestic_news
    simp only [domesticNewsList]
    by_cases hk : pyStrip k = ""
    · rw [if_pos hk, List.nil_append]
    · rw [if_neg hk, hfail]
      simp
  · unfold get_overseas_news
    simp only [overseasNewsList]
    by_cases hk : pyStrip k = ""
    · rw [if_pos hk, List.nil_append]
    · rw [if_neg hk, hfail]
      simp

/-- Witness for `C5_failure_isolation`: with a fetch oracle that fails on
every keyword, dropping the failing head keyword leaves the result
unchanged. -/
theorem C5_witness :
    get_domestic_news toyParse toyFmt (fun _ => none) 1718582400 5 ["x", "kd"] =
      get_domestic_news toyParse toyFmt (fun _ => none) 1718582400 5 ["kd"] :=
  (C5_failure_isolation ["k"] toyParse toyFmt (fun _ => none) 1718582400 5
    "x" ["kd"]).2.1 rfl

/-! Claim C6. -/

theorem requestedKeywords_nil_of_blank (ks : List String)
    (h : ∀ k ∈ ks, pyStrip k = "") : requestedKeywords ks = [] := by
  induction ks with
  | nil => rfl
  | cons k ks ih =>
    simp only [requestedKeywords]
    rw [if_pos (h k (List.mem_cons_self k ks)), List.nil_append,
      ih (fun k' hk' => h k' (List.mem_cons_of_mem k hk'))]

theorem domesticNewsList_nil_of_blank (p : String → Option Int)
    (f : Int → String) (c : Int) (fetch : String → Option (List RssItem))
    (ks : List String) (h : ∀ k ∈ ks, pyStrip k = "") :
    domesticNewsList p f c fetch ks = [] := by
  induction ks with
  | nil => rfl
  | cons k ks ih =>
    simp only [domesticNewsList]
    rw [if_pos (h k (List.mem_cons_self k ks)), List.nil_append,
      ih (fun k' hk' => h k' (List.mem_cons_of_mem k hk'))]

theorem overseasNewsList_nil_of_blank (p : String → Option Int)
    (f : Int → String) (c : Int) (fetch : String → Option (List RssItem))
    (ks : List String) (h : ∀ k ∈ ks, pyStrip k = "") :
    overseasNewsList p f c fetch ks = [] := by
  induction ks with
  | nil => rfl
  | cons k ks ih =>
    simp only [overseasNewsList]
    rw [if_pos (h k (List.mem_cons_self k ks)), List.nil_append,
      ih (fun k' hk' => h k' (List.mem_cons_of_mem k hk'))]

/-- C6: when every keyword is blank after stripping, the query-part list —
the code's "no query" sentinel condition — is empty, no request is issued
by any fetcher (`get_epmc_papers` returns before its single request, with
a request count of 0; the news fetchers skip every keyword, requesting
nothing), and all three final result lists are empty. -/
theorem C6_empty_keywords (kws : List String) (resp : Option (List EpmcResult))
    (p : String → Option Int) (f : Int → String)
    (fetch : String → Option (List RssItem)) (now : Int) (months : Nat)
    (h : ∀ k ∈ kws, pyStrip k = "") :
    epmcQueryParts kws = []
  ∧ get_epmc_papersR kws resp = ([], 0)
  ∧ requestedKeywords kws = []
  ∧ get_domestic_news p f fetch now months kws = []
  ∧ get_overseas_news p f fetch now months kws = [] := by
  have hq : epmcQueryParts kws = [] := by
    unfold epmcQueryParts
    rw [List.filter_eq_nil_iff.mpr (fun k hk => by simp [h k hk])]
    rfl
  refine ⟨hq, ?_, requestedKeywords_nil_of_blank kws h, ?_, ?_⟩
  · unfold get_epmc_papersR
    rw [if_pos hq]
  · unfold get_domestic_news
    rw [domesticNewsList_nil_of_blank p f _ fetch kws h]
    rfl
  · unfold get_overseas_news
    rw [overseasNewsList_nil_of_blank p f _ fetch kws h]
    rfl

/-- Witness for `C6_empty_keywords` at a concrete blank keyword list. -/
theorem C6_witness :
    epmcQueryParts ["", "  "] = []
  ∧ get_epmc_papersR ["", "  "] (some [paperGood]) = ([], 0)
  ∧ requestedKeywords ["", "  "] = []
  ∧ get_domestic_news toyParse toyFmt toyFetchD 1718582400 5 ["", "  "] = []
  ∧ get_overseas_news toyParse toyFmt toyFetchD 1718582400 5 ["", "  "] = [] :=
  C6_empty_keywords ["", "  "] (some [paperGood]) toyParse toyFmt toyFetchD
    1718582400 5 (by decide)

/-! Claim C8. -/

/-- C8: the normalize/merge stage — date filter, url dedup (last seen
wins), stable descending sort — is idempotent, and it is exactly the
stage both news fetchers apply to their cleaned raw records.  The
hypothesis records the behaviour of the actual libraries: the RFC-2822
parser fails on the `%Y-%m-%d` strings the formatter produces, so a
reformatted date never re-parses and is carried through the keep-as-is
path unchanged. -/
theorem C8_normalize_idempotent (p : String → Option Int) (f : Int → String)
    (fetch : String → Option (List RssItem)) (now : Int) (months : Nat)
    (ks : List String) (H : ∀ dt : Int, p (f dt) = none) :
    get_domestic_news p f fetch now months ks =
      normalizeStage p f (cutoffDate now months) (domesticRawList fetch ks)
  ∧ get_overseas_news p f fetch now months ks =
      normalizeStage p f (cutoffDate now months) (overseasRawList fetch ks)
  ∧ ∀ (c : Int) (l : List Rec),
      normalizeStage p f c (normalizeStage p f c l) = normalizeStage p f c l :=
  ⟨get_domestic_news_eq_stage p f fetch now months ks,
   get_overseas_news_eq_stage p f fetch now months ks,
   fun c l => normalizeStage_idempotent p f c H l⟩

/-- Witness for `C8_normalize_idempotent`: idempotence evaluated on a
concrete record list that exercises all three sub-stages (one record kept
and reformatted, a duplicated url, one record below the cutoff, one
unparseable date). -/
theorem C8_witness :
    normalizeStage wParse wFmt 3 (normalizeStage wParse wFmt 3 wRecs) =
      normalizeStage wParse wFmt 3 wRecs :=
  (C8_normalize_idempotent wParse wFmt (fun _ => none) 0 0 []
    (fun _ => rfl)).2.2 3 wRecs

/-! Claim C9. -/

theorem tryModels_all_fail (call : String → Option String) (ms : List String)
    (h : ∀ m ∈ ms, call m = none) : tryModels call ms = "AI 분석 실패." := by
  induction ms with
  | nil => rfl
  | cons m ms ih =>
    simp only [tryModels, h m (List.mem_cons_self m ms)]
    exact ih (fun m' hm' => h m' (List.mem_cons_of_mem m hm'))

/-- C9: `generate_ai_report` tries the candidate models in the fixed
preference order — the available ones among `gemini-1.5-pro`,
`gemini-1.5-flash`, `gemini-pro` first, then the remaining available
models — moving to the next candidate whenever a call fails; when every
candidate fails it returns the plain failure string, and a failure while
listing the models yields the plain configuration-error string: no
exception escapes, for every non-empty item list (the keyword list only
feeds the prompt, which is passed identically to every candidate). -/
theorem C9_model_fallback (items : List Rec) (available : List String)
    (call : String → Option String) (hne : items ≠ []) :
    generate_ai_report items (some available) call =
      tryModels call (preferredOrder.filter (fun m => m ∈ available)
        ++ available.filter (fun m => m ∉ preferredOrder))
  ∧ (∀ (m : String) (ms : List String), call m = none →
      tryModels call (m :: ms) = tryModels call ms)
  ∧ ((∀ m ∈ sortedModels available, call m = none) →
      generate_ai_report items (some available) call = "AI 분석 실패.")
  ∧ generate_ai_report items none call = "모델 설정 오류." := by
  refine ⟨?_, fun m ms hm => ?_, fun hall => ?_, ?_⟩
  · unfold generate_ai_report
    rw [if_neg hne]
    rfl
  · simp only [tryModels, hm]
  · unfold generate_ai_report
    rw [if_neg hne]
    exact tryModels_all_fail call _ hall
  · unfold generate_ai_report
    rw [if_neg hne]

/-- Witness for `C9_model_fallback`: with two available models and a call
oracle that always fails, the report degrades to the failure string. -/
theorem C9_witness :
    generate_ai_report [wItem] (some ["models/gemini-pro", "models/other"])
      (fun _ => none) = "AI 분석 실패." :=
  (C9_model_fallback [wItem] ["models/gemini-pro", "models/other"]
    (fun _ => none) (by decide)).2.2.1 (fun _ _ => rfl)

/-! Claim C10. -/

/-- C10: every record returned by `get_epmc_papers` has a non-empty title
and a non-empty (tag-stripped) abstract; a provider result whose title is
empty or whose stripped abstract is empty is silently dropped. -/
theorem C10_epmc_nonempty_fields (kws : List String)
    (resp : Option (List EpmcResult)) (q : EpmcResult) :
    (∀ r ∈ get_epmc_papers kws resp, r.title ≠ "" ∧ r.abstract ≠ "")
  ∧ ((q.title = "" ∨ stripTags q.abstractText = "") → epmcItem q = none) := by
  constructor
  · intro r hr
    unfold get_epmc_papers get_epmc_papersR at hr
    by_cases hq : epmcQueryParts kws = []
    · rw [if_pos hq] at hr
      cases hr
    · rw [if_neg hq] at hr
      cases resp with
      | none => cases hr
      | some results =>
        obtain ⟨q', _, hitem⟩ := List.mem_filterMap.mp hr
        simp only [epmcItem] at hitem
        by_cases hc : q'.title ≠ "" ∧ stripTags q'.abstractText ≠ ""
        · rw [if_pos hc, Option.some.injEq] at hitem
          subst hitem
          exact ⟨hc.1, hc.2⟩
        · rw [if_neg hc] at hitem
          cases hitem
  · intro hbad
    simp only [epmcItem]
    have hnc : ¬ (q.title ≠ "" ∧ stripTags q.abstractText ≠ "") := by
      rcases hbad with h1 | h2
      · exact fun hc => hc.1 h1
      · exact fun hc => hc.2 h2
    rw [if_neg hnc]

/-- Witness for `C10_epmc_nonempty_fields`: the record produced from
`paperGood` has non-empty fields, and `paperNoAbs` is dropped. -/
theorem C10_witness :
    ((⟨"Good title", "Good abstract", "https://doi.org/10.1/g",
        "2024-03-04"⟩ : Rec).title ≠ ""
  ∧ (⟨"Good title", "Good abstract", "https://doi.org/10.1/g",
        "2024-03-04"⟩ : Rec).abstract ≠ "")
  ∧ epmcItem paperNoAbs = none :=
  ⟨(C10_epmc_nonempty_fields ["k"] (some [paperGood, paperNoAbs]) paperNoAbs).1
      ⟨"Good title", "Good abstract", "https://doi.org/10.1/g", "2024-03-04"⟩
      (by decide),
   (C10_epmc_nonempty_fields ["k"] (some [paperGood, paperNoAbs]) paperNoAbs).2
      (Or.inr (by decide))⟩
